import Mathlib

/-
Verification of the tesseract kinematic-transform / collision-contact engine
(tesseract_collision/contact_checker_common.h and tesseract_ros/src/kdl/kdl_env.cpp)
against its natural-language specification.

Modelling conventions:
* Rigid transforms (Eigen::Isometry3d) are modelled as an arbitrary type `T`
  with a composition `*` and an identity `1`; joint values and distances
  (C++ double) are modelled as rationals.
* `std::map` / `std::unordered_map` keyed by strings are modelled either as
  functions `String → Option α` (where only lookups and pointwise updates
  matter) or as association lists (where entry counting or iteration order
  matters).  Association lists may order entries differently from the sorted
  C++ iteration order; every statement proved here is either order
  independent or carries hypotheses that make it so.
-/

namespace Tesseract

/-! ## Finite maps keyed by strings (std::map / std::unordered_map) -/

/-- A string-keyed map modelled as a function; `none` means the key is absent. -/
abbrev SMap (α : Type) : Type := String → Option α

/-- Pointwise map update, modelling `m[k] = v` (insert-or-assign). -/
def SMap.set (m : SMap α) (k : String) (v : α) : SMap α :=
  fun n => if n = k then some v else m n

/-- Pointwise map erase, modelling `m.erase(k)`. -/
def SMap.erase (m : SMap α) (k : String) : SMap α :=
  fun n => if n = k then none else m n

/-- Association-list lookup (first matching key), modelling `std::map::find`. -/
def alookup [DecidableEq κ] : List (κ × α) → κ → Option α
  | [], _ => none
  | (k, v) :: tl, n => if n = k then some v else alookup tl n

/-- Association-list insert-or-assign, modelling `m[k] = v` on `std::map`:
the value of an existing entry is replaced in place, a new entry is appended. -/
def aset [DecidableEq κ] : List (κ × α) → κ → α → List (κ × α)
  | [], k, v => [(k, v)]
  | (k', v') :: tl, k, v => if k = k' then (k, v) :: tl else (k', v') :: aset tl k v

/-- Association-list insert, modelling `std::map::insert`: does nothing when
the key is already present. -/
def ainsert [DecidableEq κ] (m : List (κ × α)) (k : κ) (v : α) : List (κ × α) :=
  if (alookup m k).isSome then m else m ++ [(k, v)]

/-! ## Contact aggregation (tesseract_collision/contact_checker_common.h) -/

/-- The contact aggregation policy (`ContactTestType` in
tesseract_core/basic_types.h).  `LIMITED` is the enum value outside the three
policies handled by `processResult` (its branch is commented out in the
source). -/
inductive ContactTestType where
  | FIRST
  | CLOSEST
  | ALL
  | LIMITED
deriving DecidableEq, Repr

/-- One detected contact.  Only the signed distance steers control flow in
`processResult`; the remaining fields (pair names, normal, nearest points,
…) are collapsed into an opaque tag `rest`. -/
structure ContactResult where
  distance : ℚ
  rest : ℕ
deriving DecidableEq, Repr

/-- The unordered-pair key of the contact result map. -/
abbrev ObjectPairKey : Type := String × String

/-- The accumulating contact result map: pair key to stored contacts. -/
abbrev ContactResultMap : Type := List (ObjectPairKey × List ContactResult)

/-- Transient per-query context (`ContactTestData`): requested policy, the
global early-termination flag and the accumulating result map. -/
structure ContactTestData where
  type : ContactTestType
  done : Bool
  res : ContactResultMap

/-- Shallow embedding of `processResult` (contact_checker_common.h:96-143).
Returns the updated context together with the stored contact, if any (the
C++ returns a pointer to the stored `ContactResult`, `nullptr` when nothing
was recorded).  In the `found` branch, `cdata.res[key]` (`operator[]`) first
inserts an empty vector when the key is absent; `dr[0]` of an empty vector
is undefined behaviour in C++, modelled as recording nothing, and
unreachable whenever `found` agrees with the map contents. -/
def processResult (cdata : ContactTestData) (contact : ContactResult)
    (key : ObjectPairKey) (found : Bool) : ContactTestData × Option ContactResult :=
  if !found then
    let res' := ainsert cdata.res key [contact]
    match cdata.type with
    | ContactTestType.FIRST =>
        ({ cdata with res := res', done := true }, ((alookup res' key).getD []).getLast?)
    | _ =>
        ({ cdata with res := res' }, ((alookup res' key).getD []).getLast?)
  else
    let dr := (alookup cdata.res key).getD []
    let res0 := ainsert cdata.res key []
    match cdata.type with
    | ContactTestType.ALL =>
        ({ cdata with res := aset res0 key (dr ++ [contact]) }, (dr ++ [contact]).getLast?)
    | ContactTestType.CLOSEST =>
        match dr with
        | d0 :: ds =>
            if contact.distance < d0.distance then
              ({ cdata with res := aset res0 key (contact :: ds) }, some contact)
            else
              ({ cdata with res := res0 }, none)
        | [] => ({ cdata with res := res0 }, none)
    | _ => ({ cdata with res := res0 }, none)

/-- Modelled from the spec: the contact query driver.  The loops that walk
candidate pairs and feed backend contacts through `processResult` live in
the bullet manager `.cpp` files, which are not under `src/` (only the
manager headers are).  Per the spec (§4.4), the driver checks the global
early-termination flag and skips all further evaluation once it is set;
`found` is whether the pair key already has stored results. -/
def runQuery (cdata : ContactTestData) (contacts : List (ContactResult × ObjectPairKey)) :
    ContactTestData :=
  contacts.foldl
    (fun cd p =>
      if cd.done then cd
      else (processResult cd p.1 p.2 ((alookup cd.res p.2).isSome)).1)
    cdata

/-- Total number of contacts stored in a result map. -/
def totalContacts (m : ContactResultMap) : ℕ :=
  (m.map (fun p => p.2.length)).sum

/-! ## Link activity (contact_checker_common.h:59-62) -/

/-- Shallow embedding of `isLinkActive`: a link is active when the active
list is empty or contains its name. -/
def isLinkActive (active : List String) (name : String) : Bool :=
  active.isEmpty || decide (name ∈ active)

/-! ## Canonical pair keys and the allowed-contact predicate -/

/-- Shallow embedding of `getObjectPairKey` (contact_checker_common.h:49-52):
the lexicographically smaller name first. -/
def getObjectPairKey (obj1 obj2 : String) : ObjectPairKey :=
  if obj1 < obj2 then (obj1, obj2) else (obj2, obj1)

/-- Shallow embedding of `isContactAllowed` (contact_checker_common.h:72-94):
identical names are always allowed, otherwise the injected predicate is
consulted when non-null. -/
def isContactAllowed (name1 name2 : String) (acm : Option (String → String → Bool)) : Bool :=
  if name1 = name2 then true
  else
    match acm with
    | some f => f name1 name2
    | none => false

/-! ## Kinematic tree (KDL::Tree, kdl_env.cpp) -/

/-- A KDL joint array (`KDL::JntArray`): joint position `q_nr` to value. -/
abbrev JntArray : Type := ℕ → ℚ

/-- Update one slot of a joint array, modelling `q(qnr) = value`. -/
def JntArray.set (q : JntArray) (i : ℕ) (v : ℚ) : JntArray :=
  fun j => if j = i then v else q j

mutual
/-- A KDL tree segment: name, joint slot `q_nr`, the pose map
`Segment::pose(q)` (joint motion composed with the fixed offset, identity
axis contributing nothing), and the child segments. -/
inductive Segment (T : Type) where
  | mk (name : String) (qnr : ℕ) (pose : ℚ → T) (children : SegChildren T)

/-- The list of children of a segment. -/
inductive SegChildren (T : Type) where
  | nil
  | cons (head : Segment T) (tail : SegChildren T)
end

mutual
/-- Shallow embedding of `KDLEnv::calculateTransformsHelper`
(kdl_env.cpp:574-594): accumulate `parent_frame * segment.pose(q(qnr))`,
store it under the segment name, then recurse into the children. -/
def calculateTransformsHelper [Mul T] (q : JntArray) :
    Segment T → T → SMap T → SMap T
  | Segment.mk name qnr pose children, parentFrame, m =>
    let globalFrame := parentFrame * pose (q qnr)
    calcChildren q children globalFrame (m.set name globalFrame)

/-- Recurse `calculateTransformsHelper` over a child list in order. -/
def calcChildren [Mul T] (q : JntArray) :
    SegChildren T → T → SMap T → SMap T
  | SegChildren.nil, _, m => m
  | SegChildren.cons hd tl, parentFrame, m =>
    calcChildren q tl parentFrame (calculateTransformsHelper q hd parentFrame m)
end

/-- One attachment record (`AttachedBodyInfo`): object name, parent link,
fixed relative transform and the touch links always allowed to contact the
body. -/
structure AttachedBodyInfo (T : Type) where
  object_name : String
  parent_link_name : String
  transform : T
  touch_links : List String
deriving DecidableEq

/-- The attached-body overlay pass of `KDLEnv::calculateTransforms`
(kdl_env.cpp:603-607): for each attachment in order, write
`transforms[parent_link_name] * attachment transform` under the object
name.  A lookup of an absent parent is undefined behaviour in C++
(`operator[]` default-constructs an uninitialized isometry); it is
modelled by `default`. -/
def overlayAttached [Mul T] [Inhabited T]
    (attached : List (String × AttachedBodyInfo T)) (m : SMap T) : SMap T :=
  attached.foldl
    (fun mm ab => mm.set ab.1 (((mm ab.2.parent_link_name).getD default) * ab.2.transform))
    m

/-- Shallow embedding of `KDLEnv::calculateTransforms` (kdl_env.cpp:596-608):
run the tree pass, then overlay every attached body's transform. -/
def calculateTransforms [Mul T] [Inhabited T]
    (attached : List (String × AttachedBodyInfo T)) (q : JntArray)
    (root : Segment T) (parentFrame : T) (m : SMap T) : SMap T :=
  overlayAttached attached (calculateTransformsHelper q root parentFrame m)

/-! ## Environment state and collision managers (kdl_env.cpp) -/

/-- `EnvState`: joint values plus world transforms per link name. -/
structure EnvState (T : Type) where
  joints : SMap ℚ
  transforms : SMap T

/-- The observable state of one collision contact manager: the active object
list, the per-object enabled flags and the stored transforms.  (The managers
are loaded as plugins; only this interface state is visible to kdl_env.cpp.) -/
structure ContactManager (T : Type) where
  active : List String
  enabled : String → Bool
  transforms : SMap T

/-- `enableCollisionObject`. -/
def ContactManager.enableObj (m : ContactManager T) (n : String) : ContactManager T :=
  { m with enabled := fun k => if k = n then true else m.enabled k }

/-- `disableCollisionObject`. -/
def ContactManager.disableObj (m : ContactManager T) (n : String) : ContactManager T :=
  { m with enabled := fun k => if k = n then false else m.enabled k }

/-- `setCollisionObjectsTransform(name, pose)`. -/
def ContactManager.setTransform (m : ContactManager T) (n : String) (v : T) : ContactManager T :=
  { m with transforms := m.transforms.set n v }

/-- `setCollisionObjectsTransform(TransformMap)`: every entry of the given
map is written into the stored transforms. -/
def ContactManager.setTransforms (m : ContactManager T) (tfs : SMap T) : ContactManager T :=
  { m with transforms := fun n => match tfs n with | some v => some v | none => m.transforms n }

/-- `setActiveCollisionObjects`. -/
def ContactManager.setActive (m : ContactManager T) (names : List String) : ContactManager T :=
  { m with active := names }

/-- The observable state of `KDLEnv`: the kinematic tree, the joint-name to
`q_nr` map, the live KDL joint array, the live `EnvState`, the link and
active-link name lists, the attachable-object catalog (shape data elided),
the attached-body table, the allowed-collision matrix (set of canonical
pairs), and the two collision managers.  Manipulators are not modelled
(outside the claims under verification). -/
structure KDLEnv (T : Type) where
  root : Segment T
  joint_to_qnr : SMap ℕ
  kdl_jnt_array : JntArray
  current_state : EnvState T
  link_names : List String
  active_link_names : List String
  attachable_objects : List String
  attached_bodies : List (String × AttachedBodyInfo T)
  allowed_collision_matrix : List ObjectPairKey
  discrete_manager : ContactManager T
  continuous_manager : ContactManager T

/-- Shallow embedding of `KDLEnv::setJointValuesHelper` (kdl_env.cpp:559-572):
returns whether the joint name exists, together with the (possibly updated)
array; an unknown name leaves the array untouched and logs an error. -/
def setJointValuesHelper (jointToQnr : SMap ℕ) (q : JntArray) (jointName : String)
    (jointValue : ℚ) : Bool × JntArray :=
  match jointToQnr jointName with
  | some qnr => (true, q.set qnr jointValue)
  | none => (false, q)

/-- The shared per-joint update loop of `setState`/`getState`: for each given
pair, apply `setJointValuesHelper` to the array and, on success, record the
value in the joints map. -/
def applyJointValues (qnr : SMap ℕ) (l : List (String × ℚ)) (jm : SMap ℚ)
    (arr : JntArray) : SMap ℚ × JntArray :=
  l.foldl
    (fun acc p =>
      let r := setJointValuesHelper qnr acc.2 p.1 p.2
      (if r.1 then SMap.set acc.1 p.1 p.2 else acc.1, r.2))
    (jm, arr)

/-- The joint-array part of `applyJointValues` on its own. -/
def applyJointArray (qnr : SMap ℕ) (l : List (String × ℚ)) (arr : JntArray) : JntArray :=
  l.foldl (fun a p => (setJointValuesHelper qnr a p.1 p.2).2) arr

/-- The bulk `current_state_->joints.insert(joints.begin(), joints.end())` of
the map overload of `setState` (kdl_env.cpp:175): each given entry is added
only when its key is absent. -/
def insertAbsent (jm : SMap ℚ) (l : List (String × ℚ)) : SMap ℚ :=
  l.foldl (fun m p => if (m p.1).isSome then m else m.set p.1 p.2) jm

/-- Shallow embedding of the map overload of `KDLEnv::setState`
(kdl_env.cpp:173-189): bulk-insert the given joints into the live record,
apply the valid ones to the live array and record, recompute the live
transforms and push them into both managers. -/
def KDLEnv.setState [Mul T] [One T] [Inhabited T] (env : KDLEnv T)
    (joints : List (String × ℚ)) : KDLEnv T :=
  let j0 := insertAbsent env.current_state.joints joints
  let r := applyJointValues env.joint_to_qnr joints j0 env.kdl_jnt_array
  let tfs := calculateTransforms env.attached_bodies r.2 env.root 1 env.current_state.transforms
  { env with
    kdl_jnt_array := r.2
    current_state := { joints := r.1, transforms := tfs }
    discrete_manager := env.discrete_manager.setTransforms tfs
    continuous_manager := env.continuous_manager.setTransforms tfs }

/-- Shallow embedding of the vector overload of `KDLEnv::getState`
(kdl_env.cpp:252-268): copy the live state and live array, overlay the given
joints on the copies, recompute transforms from the copied array, and return
the new state.  The method is `const`; the environment is threaded through
unchanged, mirroring that every write in the body targets the local copies. -/
def KDLEnv.getState [Mul T] [One T] [Inhabited T] (env : KDLEnv T)
    (joint_names : List String) (joint_values : List ℚ) : EnvState T × KDLEnv T :=
  let r := applyJointValues env.joint_to_qnr (joint_names.zip joint_values)
    env.current_state.joints env.kdl_jnt_array
  (⟨r.1, calculateTransforms env.attached_bodies r.2 env.root 1 env.current_state.transforms⟩,
   env)

/-- Shallow embedding of `KDLEnv::attachBody` (kdl_env.cpp:453-510): reject
when already attached, not in the catalog, or colliding with a link name;
otherwise extend the link names, conditionally the active names, record the
attachment, enable the object, recompute the live transforms, push the
object transform and the active list into both managers.  (Manipulator
bookkeeping is not modelled.) -/
def KDLEnv.attachBody [Mul T] [One T] [Inhabited T] (env : KDLEnv T)
    (info : AttachedBodyInfo T) : KDLEnv T :=
  if (alookup env.attached_bodies info.object_name).isSome then env
  else if ¬ (info.object_name ∈ env.attachable_objects) then env
  else if info.object_name ∈ env.link_names then env
  else
    let link_names := env.link_names ++ [info.object_name]
    let active :=
      if info.parent_link_name ∈ env.active_link_names then
        env.active_link_names ++ [info.object_name]
      else env.active_link_names
    let attached := env.attached_bodies ++ [(info.object_name, info)]
    let tfs := calculateTransforms attached env.kdl_jnt_array env.root 1
      env.current_state.transforms
    let objTf := (tfs info.object_name).getD default
    { env with
      link_names := link_names
      active_link_names := active
      attached_bodies := attached
      current_state := { env.current_state with transforms := tfs }
      discrete_manager :=
        (((env.discrete_manager.enableObj info.object_name).setTransform
          info.object_name objTf).setActive active)
      continuous_manager :=
        (((env.continuous_manager.enableObj info.object_name).setTransform
          info.object_name objTf).setActive active) }

/-- Shallow embedding of `KDLEnv::detachBody` (kdl_env.cpp:512-536): when the
name is attached, drop it from the attachment table, the link names and the
active names, push the shrunk active list into both managers, disable the
object and erase its live transform.  (Manipulator bookkeeping is not
modelled.) -/
def KDLEnv.detachBody (env : KDLEnv T) (name : String) : KDLEnv T :=
  if (alookup env.attached_bodies name).isSome then
    let attached := env.attached_bodies.filter (fun p => p.1 ≠ name)
    let link_names := env.link_names.filter (fun n => n ≠ name)
    let active := env.active_link_names.filter (fun n => n ≠ name)
    { env with
      attached_bodies := attached
      link_names := link_names
      active_link_names := active
      current_state := { env.current_state with
        transforms := env.current_state.transforms.erase name }
      discrete_manager := (env.discrete_manager.setActive active).disableObj name
      continuous_manager := (env.continuous_manager.setActive active).disableObj name }
  else env

/-! ## Allowed-contact predicate (kdl_env.cpp:610-635) -/

/-- Modelled from the spec: `AllowedCollisionMatrix::isCollisionAllowed`
lives in tesseract_core/basic_types.h, which is not under `src/`.  The spec
(§3) defines the matrix as keyed by the canonical unordered pair
(lexicographically smaller name first); presence of the pair means contact
is allowed. -/
def acmAllowed (acm : List ObjectPairKey) (a b : String) : Bool :=
  decide (getObjectPairKey a b ∈ acm)

/-- Shallow embedding of `KDLEnv::defaultIsContactAllowedFn`
(kdl_env.cpp:610-635): consult the allowed-collision matrix first; then, if
the first name is an attached body, test whether the second name is one of
its touch links or its parent link; otherwise, if only the second name is
attached, test the first name against its touch links and parent. -/
def KDLEnv.defaultIsContactAllowedFn (env : KDLEnv T) (link_name1 link_name2 : String) : Bool :=
  if acmAllowed env.allowed_collision_matrix link_name1 link_name2 then true
  else
    match alookup env.attached_bodies link_name1, alookup env.attached_bodies link_name2 with
    | none, none => false
    | none, some it2 =>
        decide (link_name1 ∈ it2.touch_links) || decide (link_name1 = it2.parent_link_name)
    | some it1, _ =>
        decide (link_name2 ∈ it1.touch_links) || decide (link_name2 = it1.parent_link_name)

/-- The full allowed-contact predicate as wired up by the environment:
`isContactAllowed` with `defaultIsContactAllowedFn` injected. -/
def KDLEnv.isAllowed (env : KDLEnv T) (a b : String) : Bool :=
  isContactAllowed a b (some env.defaultIsContactAllowedFn)

/-- Whether `body` is an attached body whose touch links or parent link
include `other`. -/
def attachedAllows (env : KDLEnv T) (body other : String) : Bool :=
  match alookup env.attached_bodies body with
  | some info =>
      decide (other ∈ info.touch_links) || decide (other = info.parent_link_name)
  | none => false

/-- The allowed-contact condition as the spec words it (§4.5), for
comparison with the implementation: identical names, a canonical pair in the
matrix, or an attachment covering the other name, checked in both argument
orders. -/
def specAllowedCond (env : KDLEnv T) (a b : String) : Bool :=
  decide (a = b) || acmAllowed env.allowed_collision_matrix a b ||
    attachedAllows env a b || attachedAllows env b a

/-! ## Convex hull utility (contact_checker_common.h:157-225) -/

/-- A half edge of the hull backend's output mesh (`btConvexHullComputer::Edge`),
with its source vertex, target vertex and the index of the next edge of the
same face. -/
structure HalfEdge where
  sourceVertex : ℕ
  targetVertex : ℕ
  nextEdgeOfFace : ℕ
deriving DecidableEq, Repr, Inhabited

/-- A 3d point (`btVector3` / `Eigen::Vector3d`), coordinates as rationals. -/
abbrev Vec3 : Type := ℚ × ℚ × ℚ

/-- The hull backend's output (`btConvexHullComputer` after `compute`): the
scalar result code, the hull vertices, the half-edge array and, per face,
the index of its starting edge. -/
structure BtConvexHullComputer where
  ret : ℚ
  vertices : List Vec3
  edges : List HalfEdge
  faces : List ℕ
deriving Repr

/-- The convex-hull backend as an opaque primitive: point cloud, shrink and
shrinkClamp in, half-edge mesh plus result code out. -/
abbrev ConvexHullBackend : Type := List Vec3 → ℚ → ℚ → BtConvexHullComputer

/-- Edge-array indexing, modelling `conv.edges[i]` (out-of-range access is
undefined behaviour in C++, modelled by `default`). -/
def getEdge (edges : List HalfEdge) (i : ℕ) : HalfEdge :=
  edges.getD i default

/-- The `while (c != a)` walk of `createConvexHull`'s face loop, following
`getNextEdgeOfFace` links until the walk returns to the starting vertex.
The C++ loop does not terminate on malformed meshes; the walk carries fuel
and truncates there instead. -/
def faceWalk (edges : List HalfEdge) : ℕ → HalfEdge → ℕ → List ℕ → List ℕ
  | 0, _, _, acc => acc
  | fuel + 1, edge, a, acc =>
    let edge' := getEdge edges edge.nextEdgeOfFace
    let c := edge'.targetVertex
    if c = a then acc
    else faceWalk edges fuel edge' a (acc ++ [c])

/-- One face of the hull output: the start edge gives the first two
vertices, the next edge the third, then the walk continues until it closes. -/
def buildFace (edges : List HalfEdge) (startEdge : ℕ) : List ℕ :=
  let sourceEdge := getEdge edges startEdge
  let a := sourceEdge.sourceVertex
  let b := sourceEdge.targetVertex
  let edge := getEdge edges sourceEdge.nextEdgeOfFace
  let c := edge.targetVertex
  faceWalk edges (edges.length + 1) edge a [a, b, c]

/-- Shallow embedding of `createConvexHull` (contact_checker_common.h:157-225),
parameterised by the backend.  Both output containers are cleared up front
(modelled by returning fresh lists); a negative backend result code returns
`-1` with the outputs still empty, otherwise the hull vertices are copied
out and each face is emitted as its vertex count followed by the vertex
indices. -/
def createConvexHull (backend : ConvexHullBackend) (input : List Vec3)
    (shrink : ℚ) (shrinkClamp : ℚ) : ℤ × List Vec3 × List ℤ :=
  let conv := backend input shrink shrinkClamp
  if conv.ret < 0 then (-1, [], [])
  else
    let vertices := conv.vertices
    let faces := conv.faces.foldl
      (fun acc startEdge =>
        let face := buildFace conv.edges startEdge
        acc ++ [(face.length : ℤ)] ++ face.map (fun i => (i : ℤ)))
      []
    ((conv.faces.length : ℤ), vertices, faces)

/-! ## Derived folds and witness fixtures -/

/-- The contact a CLOSEST query retains after processing `cs` on top of a
stored contact `c`: replaced exactly when the new distance is strictly
smaller. -/
def closestFold (c : ContactResult) (cs : List ContactResult) : ContactResult :=
  cs.foldl (fun best x => if x.distance < best.distance then x else best) c

/-- Fixture: a contact at distance `-1`. -/
def contactA : ContactResult := ⟨-1, 0⟩

/-- Fixture: a contact at distance `-2`. -/
def contactB : ContactResult := ⟨-2, 1⟩

/-- Fixture: a contact at distance `-3`. -/
def contactC : ContactResult := ⟨-3, 2⟩

/-- Fixture: a fresh FIRST-policy query context. -/
def cdataFirstW : ContactTestData := ⟨ContactTestType.FIRST, false, []⟩

/-- Fixture: a fresh CLOSEST-policy query context. -/
def cdataClosestW : ContactTestData := ⟨ContactTestType.CLOSEST, false, []⟩

/-- Fixture: a fresh out-of-range-policy query context. -/
def cdataLimitedW : ContactTestData := ⟨ContactTestType.LIMITED, false, []⟩

/-- Fixture: an out-of-range-policy context whose map already stores a
contact for the pair `(a, b)`. -/
def cdataLimited2W : ContactTestData := ⟨ContactTestType.LIMITED, false, [(("a", "b"), [contactA])]⟩

/-- Fixture: a hull backend that always fails with result code `-2`. -/
def errBackend : ConvexHullBackend := fun _ _ _ => ⟨-2, [((0 : ℚ), (0 : ℚ), (0 : ℚ))], [], []⟩

/-- Fixture: a one-segment tree whose pose map adds one to the joint value
(transforms are modelled over the multiplicative rationals). -/
def segBaseW : Segment ℚ := Segment.mk "base_link" 0 (fun v => v + 1) SegChildren.nil

/-- Fixture: a collision manager with one active object, everything
disabled and no stored transforms. -/
def managerW : ContactManager ℚ := ⟨["base_link"], fun _ => false, fun _ => none⟩

/-- Fixture: an environment with one link and one joint `j1`. -/
def envJointW : KDLEnv ℚ :=
  { root := segBaseW
    joint_to_qnr := fun n => if n = "j1" then some 0 else none
    kdl_jnt_array := fun _ => 0
    current_state :=
      ⟨fun n => if n = "j1" then some 0 else none,
       fun n => if n = "base_link" then some 1 else none⟩
    link_names := ["base_link"]
    active_link_names := ["base_link"]
    attachable_objects := []
    attached_bodies := []
    allowed_collision_matrix := []
    discrete_manager := managerW
    continuous_manager := managerW }

/-- Fixture: an environment with two attached bodies where only `B` lists
`A` among its touch links. -/
def envAttachW : KDLEnv ℚ :=
  { envJointW with
    attached_bodies :=
      [("A", ⟨"A", "base_link", 1, []⟩), ("B", ⟨"B", "other_link", 1, ["A"]⟩)] }

/-- Fixture: an attachment request binding object `obj` to the base link. -/
def infoW : AttachedBodyInfo ℚ := ⟨"obj", "base_link", 2, []⟩

/-- Fixture: an environment whose catalog offers `obj`, not yet attached. -/
def envCatW : KDLEnv ℚ := { envJointW with attachable_objects := ["obj"] }

/-! ## Map lemmas -/

@[simp] theorem SMap.set_same (m : SMap α) (k : String) (v : α) : (m.set k v) k = some v := by
  simp [SMap.set]

@[simp] theorem SMap.set_other (m : SMap α) (k : String) (v : α) (n : String) (h : n ≠ k) :
    (m.set k v) n = m n := by
  simp [SMap.set, h]

@[simp] theorem alookup_nil [DecidableEq κ] (n : κ) : alookup ([] : List (κ × α)) n = none := rfl

@[simp] theorem alookup_cons [DecidableEq κ] (k : κ) (v : α) (tl : List (κ × α)) (n : κ) :
    alookup ((k, v) :: tl) n = if n = k then some v else alookup tl n := rfl

theorem alookup_append_right [DecidableEq κ] {m : List (κ × α)} {n : κ}
    (h : alookup m n = none) (v : α) : alookup (m ++ [(n, v)]) n = some v := by
  induction m with
  | nil => simp
  | cons hd tl ih =>
    obtain ⟨k, w⟩ := hd
    by_cases hk : n = k
    · simp [hk] at h
    · simpa [hk] using ih (by simpa [hk] using h)

theorem alookup_none_iff [DecidableEq κ] {m : List (κ × α)} {n : κ} :
    alookup m n = none ↔ ∀ p ∈ m, p.1 ≠ n := by
  induction m with
  | nil => simp
  | cons hd tl ih =>
    obtain ⟨k, w⟩ := hd
    by_cases hk : n = k
    · subst hk; simp
    · simp [hk, ih, Ne.symm hk]

@[simp] theorem alookup_aset_same [DecidableEq κ] (m : List (κ × α)) (k : κ) (v : α) :
    alookup (aset m k v) k = some v := by
  induction m with
  | nil => simp [aset]
  | cons hd tl ih =>
    obtain ⟨k', v'⟩ := hd
    by_cases hk : k = k'
    · simp [aset, hk]
    · simp [aset, hk, Ne.symm hk, ih]

theorem ainsert_of_none [DecidableEq κ] {m : List (κ × α)} {k : κ}
    (h : alookup m k = none) (v : α) : ainsert m k v = m ++ [(k, v)] := by
  simp [ainsert, h]

theorem ainsert_of_isSome [DecidableEq κ] {m : List (κ × α)} {k : κ}
    (h : (alookup m k).isSome = true) (v : α) : ainsert m k v = m := by
  simp [ainsert, h]

/-! ## C10: empty active list means every link is active -/

/-- C10: for every link name, `isLinkActive` with an empty active list
returns true (an empty active set treats every object as active), and a
link is inactive exactly when the list is non-empty and does not contain
its name. -/
theorem isLinkActive_empty_all_active (active : List String) (name : String) :
    isLinkActive [] name = true ∧
    (isLinkActive active name = false ↔ active ≠ [] ∧ name ∉ active) := by
  refine ⟨rfl, ?_⟩
  cases active with
  | nil => simp [isLinkActive]
  | cons hd tl => simp [isLinkActive]

/-! ## C9: convex hull backend failure -/

/-- C9: whenever the hull backend reports a negative result code,
`createConvexHull` returns a negative face count and both output containers
are empty. -/
theorem createConvexHull_backend_error (backend : ConvexHullBackend) (input : List Vec3)
    (shrink shrinkClamp : ℚ)
    (h : (backend input shrink shrinkClamp).ret < 0) :
    (createConvexHull backend input shrink shrinkClamp).1 < 0 ∧
    (createConvexHull backend input shrink shrinkClamp).2.1 = [] ∧
    (createConvexHull backend input shrink shrinkClamp).2.2 = [] := by
  have hval : createConvexHull backend input shrink shrinkClamp = (-1, [], []) := by
    simp only [createConvexHull, if_pos h]
  rw [hval]
  refine ⟨by norm_num, rfl, rfl⟩

/-- Witness for C9 at a concrete failing backend. -/
theorem createConvexHull_backend_error_witness :
    (errBackend [((1 : ℚ), (0 : ℚ), (0 : ℚ))] (-1) (-1)).ret < 0 ∧
    ((createConvexHull errBackend [((1 : ℚ), (0 : ℚ), (0 : ℚ))] (-1) (-1)).1 < 0 ∧
     (createConvexHull errBackend [((1 : ℚ), (0 : ℚ), (0 : ℚ))] (-1) (-1)).2.1 = [] ∧
     (createConvexHull errBackend [((1 : ℚ), (0 : ℚ), (0 : ℚ))] (-1) (-1)).2.2 = []) :=
  ⟨by decide,
   createConvexHull_backend_error errBackend [((1 : ℚ), (0 : ℚ), (0 : ℚ))] (-1) (-1) (by decide)⟩

/-! ## Query driver lemmas -/

@[simp] theorem runQuery_nil (cdata : ContactTestData) : runQuery cdata [] = cdata := rfl

theorem runQuery_cons (cdata : ContactTestData) (p : ContactResult × ObjectPairKey)
    (tl : List (ContactResult × ObjectPairKey)) :
    runQuery cdata (p :: tl) =
      runQuery (if cdata.done then cdata
        else (processResult cdata p.1 p.2 ((alookup cdata.res p.2).isSome)).1) tl := rfl

theorem runQuery_done (cdata : ContactTestData) (l : List (ContactResult × ObjectPairKey))
    (h : cdata.done = true) : runQuery cdata l = cdata := by
  induction l with
  | nil => rfl
  | cons p tl ih => rw [runQuery_cons, if_pos h]; exact ih

/-! ## C2: FIRST policy records one contact and terminates the query -/

/-- C2: under the FIRST policy, a fresh query records at most one contact in
the entire result map; the first contact processed is stored under its pair
key, the global done flag is set at that moment, and nothing further is
recorded. -/
theorem runQuery_first_at_most_one (cdata : ContactTestData)
    (contacts : List (ContactResult × ObjectPairKey))
    (ht : cdata.type = ContactTestType.FIRST) (hd : cdata.done = false)
    (hr : cdata.res = []) :
    totalContacts (runQuery cdata contacts).res ≤ 1 ∧
    ∀ c k rest, contacts = (c, k) :: rest →
      (runQuery cdata contacts).res = [(k, [c])] ∧ (runQuery cdata contacts).done = true := by
  cases contacts with
  | nil =>
    refine ⟨?_, ?_⟩
    · simp [hr, totalContacts]
    · intro c k rest h; cases h
  | cons p tl =>
    obtain ⟨c, k⟩ := p
    have hstep : (processResult cdata c k ((alookup cdata.res k).isSome)).1 =
        { cdata with res := [(k, [c])], done := true } := by
      simp [processResult, hr, ht, ainsert]
    rw [runQuery_cons, if_neg (by simp [hd]), hstep, runQuery_done _ tl rfl]
    refine ⟨by simp [totalContacts], ?_⟩
    intro c' k' rest h
    rw [List.cons.injEq, Prod.mk.injEq] at h
    obtain ⟨⟨rfl, rfl⟩, rfl⟩ := h
    exact ⟨rfl, rfl⟩

/-- Witness for C2: a FIRST query over two candidate contacts stores exactly
the first one and stops. -/
theorem runQuery_first_at_most_one_witness :
    totalContacts (runQuery cdataFirstW [(contactA, ("a", "b")), (contactB, ("a", "c"))]).res ≤ 1 ∧
    (runQuery cdataFirstW [(contactA, ("a", "b")), (contactB, ("a", "c"))]).res
      = [(("a", "b"), [contactA])] ∧
    (runQuery cdataFirstW [(contactA, ("a", "b")), (contactB, ("a", "c"))]).done = true :=
  ⟨(runQuery_first_at_most_one cdataFirstW _ rfl rfl rfl).1,
   ((runQuery_first_at_most_one cdataFirstW _ rfl rfl rfl).2 contactA ("a", "b")
      [(contactB, ("a", "c"))] rfl).1,
   ((runQuery_first_at_most_one cdataFirstW _ rfl rfl rfl).2 contactA ("a", "b")
      [(contactB, ("a", "c"))] rfl).2⟩

/-! ## C3: CLOSEST policy keeps the minimum-distance contact per pair -/

theorem closestFold_cons (c x : ContactResult) (cs : List ContactResult) :
    closestFold c (x :: cs) = closestFold (if x.distance < c.distance then x else c) cs := rfl

theorem closestFold_le_start (c : ContactResult) (cs : List ContactResult) :
    (closestFold c cs).distance ≤ c.distance := by
  induction cs generalizing c with
  | nil => exact le_refl _
  | cons x cs ih =>
    rw [closestFold_cons]
    refine le_trans (ih _) ?_
    by_cases hx : x.distance < c.distance
    · rw [if_pos hx]; exact le_of_lt hx
    · rw [if_neg hx]

theorem closestFold_le_mem (c : ContactResult) (cs : List ContactResult) :
    ∀ x ∈ cs, (closestFold c cs).distance ≤ x.distance := by
  induction cs generalizing c with
  | nil => intro x hx; cases hx
  | cons y cs ih =>
    intro x hx
    rw [closestFold_cons]
    rcases List.mem_cons.mp hx with h | h
    · subst h
      refine le_trans (closestFold_le_start _ _) ?_
      by_cases hy : x.distance < c.distance
      · rw [if_pos hy]
      · rw [if_neg hy]; exact le_of_not_lt hy
    · exact ih _ x h

/-- Stepping a CLOSEST query with one stored contact replaces it exactly
when the new contact is strictly closer, and never sets the done flag. -/
theorem runQuery_closest_inv (k : ObjectPairKey) (cs : List ContactResult)
    (cdata : ContactTestData) (b : ContactResult)
    (ht : cdata.type = ContactTestType.CLOSEST) (hd : cdata.done = false)
    (hk : alookup cdata.res k = some [b]) :
    alookup (runQuery cdata (cs.map (fun c => (c, k)))).res k = some [closestFold b cs] ∧
    (runQuery cdata (cs.map (fun c => (c, k)))).done = false := by
  induction cs generalizing cdata b with
  | nil => exact ⟨by simpa [closestFold] using hk, hd⟩
  | cons x cs ih =>
    obtain ⟨ty, dn, rs⟩ := cdata
    simp only at ht hd hk
    subst ht; subst hd
    simp only [List.map_cons]
    rw [runQuery_cons, if_neg (by simp)]
    by_cases hx : x.distance < b.distance
    · have hcalc : (processResult ⟨ContactTestType.CLOSEST, false, rs⟩ x k
          ((alookup rs k).isSome)).1 =
          ⟨ContactTestType.CLOSEST, false, aset rs k [x]⟩ := by
        simp [processResult, hk, ainsert, hx]
      rw [hcalc, closestFold_cons, if_pos hx]
      exact ih ⟨ContactTestType.CLOSEST, false, aset rs k [x]⟩ x rfl rfl (by simp)
    · have hcalc : (processResult ⟨ContactTestType.CLOSEST, false, rs⟩ x k
          ((alookup rs k).isSome)).1 = ⟨ContactTestType.CLOSEST, false, rs⟩ := by
        simp [processResult, hk, ainsert, hx]
      rw [hcalc, closestFold_cons, if_neg hx]
      exact ih ⟨ContactTestType.CLOSEST, false, rs⟩ b rfl rfl hk

/-- C3: under the CLOSEST policy, processing a sequence of contacts for one
pair stores the first contact unconditionally, each later contact replaces
the stored one exactly when strictly closer (the `closestFold`), exactly one
contact is retained, and its distance is less than or equal to the distance
of every processed contact. -/
theorem runQuery_closest_policy (cdata : ContactTestData) (k : ObjectPairKey)
    (c0 : ContactResult) (cs : List ContactResult)
    (ht : cdata.type = ContactTestType.CLOSEST) (hd : cdata.done = false)
    (hk : alookup cdata.res k = none) :
    alookup (runQuery cdata ((c0 :: cs).map (fun c => (c, k)))).res k
      = some [closestFold c0 cs] ∧
    (closestFold c0 cs).distance ≤ c0.distance ∧
    ∀ x ∈ cs, (closestFold c0 cs).distance ≤ x.distance := by
  refine ⟨?_, closestFold_le_start c0 cs, closestFold_le_mem c0 cs⟩
  obtain ⟨ty, dn, rs⟩ := cdata
  simp only at ht hd hk
  subst ht; subst hd
  simp only [List.map_cons]
  rw [runQuery_cons, if_neg (by simp)]
  have hcalc : (processResult ⟨ContactTestType.CLOSEST, false, rs⟩ c0 k
      ((alookup rs k).isSome)).1 =
      ⟨ContactTestType.CLOSEST, false, rs ++ [(k, [c0])]⟩ := by
    simp [processResult, hk, ainsert]
  rw [hcalc]
  exact (runQuery_closest_inv k cs ⟨ContactTestType.CLOSEST, false, rs ++ [(k, [c0])]⟩ c0
    rfl rfl (alookup_append_right hk [c0])).1

/-- Witness for C3: three contacts for one pair, the middle one closest. -/
theorem runQuery_closest_policy_witness :
    alookup (runQuery cdataClosestW
      (([contactA, contactC, contactB]).map (fun c => (c, (("a", "b") : ObjectPairKey))))).res
      ("a", "b") = some [closestFold contactA [contactC, contactB]] ∧
    (closestFold contactA [contactC, contactB]).distance ≤ contactA.distance ∧
    (closestFold contactA [contactC, contactB]).distance ≤ contactC.distance :=
  ⟨(runQuery_closest_policy cdataClosestW ("a", "b") contactA [contactC, contactB]
      rfl rfl rfl).1,
   (runQuery_closest_policy cdataClosestW ("a", "b") contactA [contactC, contactB]
      rfl rfl rfl).2.1,
   (runQuery_closest_policy cdataClosestW ("a", "b") contactA [contactC, contactB]
      rfl rfl rfl).2.2 contactC (by simp)⟩

/-! ## C4: out-of-range policy -/

/-- C4 counterexample: with the out-of-range policy value, processing a
contact whose pair key has no stored results DOES record it (the non-FIRST
arm of the not-found branch runs for every non-FIRST policy), so the claim
that the result map is always unchanged is false. -/
theorem processResult_limited_counterexample :
    cdataLimitedW.type ≠ ContactTestType.FIRST ∧
    cdataLimitedW.type ≠ ContactTestType.ALL ∧
    cdataLimitedW.type ≠ ContactTestType.CLOSEST ∧
    cdataLimitedW.res = [] ∧
    (processResult cdataLimitedW contactA ("a", "b") false).1.res
      = [(("a", "b"), [contactA])] := by
  exact ⟨by decide, by decide, by decide, rfl, rfl⟩

/-- C4 amended: with a policy other than FIRST, ALL and CLOSEST, processing
a contact whose pair key already has stored results records nothing (the
context is returned unchanged and no contact pointer is produced); but a
contact whose pair key has no stored results is recorded, appended under its
key exactly like the non-FIRST arm of the not-found branch, with the done
flag untouched. -/
theorem processResult_limited (cdata : ContactTestData) (c : ContactResult)
    (k : ObjectPairKey) (ht : cdata.type = ContactTestType.LIMITED) :
    ((alookup cdata.res k).isSome = true →
      (processResult cdata c k true).1 = cdata ∧ (processResult cdata c k true).2 = none) ∧
    (alookup cdata.res k = none →
      (processResult cdata c k false).1.res = cdata.res ++ [(k, [c])] ∧
      (processResult cdata c k false).1.done = cdata.done ∧
      (processResult cdata c k false).2 = some c) := by
  obtain ⟨ty, dn, rs⟩ := cdata
  simp only at ht
  subst ht
  constructor
  · intro h
    constructor
    · simp [processResult, ainsert_of_isSome h]
    · simp [processResult]
  · intro h
    refine ⟨?_, ?_, ?_⟩
    · simp [processResult, ainsert_of_none h]
    · simp [processResult]
    · simp [processResult, ainsert_of_none h, alookup_append_right h]

/-- Witness for C4's amended claim, at a context with a stored pair and at a
fresh context. -/
theorem processResult_limited_witness :
    ((processResult cdataLimited2W contactB ("a", "b") true).1 = cdataLimited2W ∧
     (processResult cdataLimited2W contactB ("a", "b") true).2 = none) ∧
    ((processResult cdataLimitedW contactB ("c", "d") false).1.res
        = cdataLimitedW.res ++ [(("c", "d"), [contactB])] ∧
     (processResult cdataLimitedW contactB ("c", "d") false).1.done = cdataLimitedW.done ∧
     (processResult cdataLimitedW contactB ("c", "d") false).2 = some contactB) :=
  ⟨(processResult_limited cdataLimited2W contactB ("a", "b") rfl).1 (by decide),
   (processResult_limited cdataLimitedW contactB ("c", "d") rfl).2 (by decide)⟩

/-! ## C5: the allowed-contact predicate -/

theorem getObjectPairKey_comm (a b : String) : getObjectPairKey a b = getObjectPairKey b a := by
  unfold getObjectPairKey
  rcases lt_trichotomy a b with h | h | h
  · rw [if_pos h, if_neg (not_lt_of_gt h)]
  · subst h; simp
  · rw [if_neg (not_lt_of_gt h), if_pos h]

theorem acmAllowed_comm (acm : List ObjectPairKey) (a b : String) :
    acmAllowed acm a b = acmAllowed acm b a := by
  unfold acmAllowed
  rw [getObjectPairKey_comm]

theorem specAllowedCond_comm {T : Type} (env : KDLEnv T) (a b : String) :
    specAllowedCond env a b = specAllowedCond env b a := by
  unfold specAllowedCond
  rw [acmAllowed_comm]
  have hd : (decide (a = b) : Bool) = decide (b = a) := by simp [eq_comm]
  rw [hd]
  cases attachedAllows env a b <;> cases attachedAllows env b a <;> simp

/-- When at most one of the two names is an attached body, the implemented
predicate agrees with the spec's condition. -/
theorem isAllowed_eq_spec_of_one_side {T : Type} (env : KDLEnv T) (a b : String)
    (h : alookup env.attached_bodies a = none ∨ alookup env.attached_bodies b = none) :
    env.isAllowed a b = specAllowedCond env a b := by
  by_cases hab : a = b
  · subst hab
    simp [KDLEnv.isAllowed, isContactAllowed, specAllowedCond]
  · cases hacm : acmAllowed env.allowed_collision_matrix a b with
    | true =>
      simp [KDLEnv.isAllowed, isContactAllowed, KDLEnv.defaultIsContactAllowedFn,
        specAllowedCond, hab, hacm]
    | false =>
      rcases h with h | h
      · cases hb : alookup env.attached_bodies b with
        | none =>
          simp [KDLEnv.isAllowed, isContactAllowed, KDLEnv.defaultIsContactAllowedFn,
            specAllowedCond, attachedAllows, hab, hacm, h, hb]
        | some i2 =>
          simp [KDLEnv.isAllowed, isContactAllowed, KDLEnv.defaultIsContactAllowedFn,
            specAllowedCond, attachedAllows, hab, hacm, h, hb]
      · cases ha : alookup env.attached_bodies a with
        | none =>
          simp [KDLEnv.isAllowed, isContactAllowed, KDLEnv.defaultIsContactAllowedFn,
            specAllowedCond, attachedAllows, hab, hacm, ha, h]
        | some i1 =>
          simp [KDLEnv.isAllowed, isContactAllowed, KDLEnv.defaultIsContactAllowedFn,
            specAllowedCond, attachedAllows, hab, hacm, ha, h]

/-- C5 counterexample: with two attached bodies `A` and `B` where `A` is in
`B`'s touch links, the spec's condition holds for `(A, B)`, yet the
implementation returns false for `(A, B)` and true for `(B, A)`: only the
first argument's attachment record is consulted when both names are
attached, so the claimed condition and the claimed symmetry both fail. -/
theorem isAllowed_both_attached_counterexample :
    specAllowedCond envAttachW "A" "B" = true ∧
    KDLEnv.isAllowed envAttachW "A" "B" = false ∧
    KDLEnv.isAllowed envAttachW "B" "A" = true := by
  refine ⟨by decide, by decide, by decide⟩

/-- C5 amended: `isAllowed(a, a)` is true for every name, and — provided at
most one of the two names is an attached body — the predicate returns true
exactly under the spec's condition (identical names, matrix pair, or
attachment parent/touch-link coverage in either order) and is symmetric.
When both names are attached bodies, only the first argument's attachment
record is consulted. -/
theorem isAllowed_characterization {T : Type} (env : KDLEnv T) (a b : String)
    (h : alookup env.attached_bodies a = none ∨ alookup env.attached_bodies b = none) :
    env.isAllowed a a = true ∧
    env.isAllowed a b = specAllowedCond env a b ∧
    env.isAllowed a b = env.isAllowed b a := by
  refine ⟨by simp [KDLEnv.isAllowed, isContactAllowed], isAllowed_eq_spec_of_one_side env a b h, ?_⟩
  rw [isAllowed_eq_spec_of_one_side env a b h, isAllowed_eq_spec_of_one_side env b a h.symm,
    specAllowedCond_comm]

/-- Witness for C5's amended claim: `X` is not attached, `A` is. -/
theorem isAllowed_characterization_witness :
    KDLEnv.isAllowed envAttachW "X" "X" = true ∧
    KDLEnv.isAllowed envAttachW "X" "A" = specAllowedCond envAttachW "X" "A" ∧
    KDLEnv.isAllowed envAttachW "X" "A" = KDLEnv.isAllowed envAttachW "A" "X" :=
  isAllowed_characterization envAttachW "X" "A" (Or.inl (by decide))

/-! ## Joint-update fold lemmas -/

theorem applyJointValues_nil (qnr : SMap ℕ) (jm : SMap ℚ) (arr : JntArray) :
    applyJointValues qnr [] jm arr = (jm, arr) := rfl

theorem applyJointValues_cons (qnr : SMap ℕ) (p : String × ℚ) (l : List (String × ℚ))
    (jm : SMap ℚ) (arr : JntArray) :
    applyJointValues qnr (p :: l) jm arr =
      applyJointValues qnr l
        (if (setJointValuesHelper qnr arr p.1 p.2).1 then jm.set p.1 p.2 else jm)
        (setJointValuesHelper qnr arr p.1 p.2).2 := rfl

theorem applyJointArray_cons (qnr : SMap ℕ) (p : String × ℚ) (l : List (String × ℚ))
    (arr : JntArray) :
    applyJointArray qnr (p :: l) arr =
      applyJointArray qnr l (setJointValuesHelper qnr arr p.1 p.2).2 := rfl

theorem applyJointValues_snd (qnr : SMap ℕ) (l : List (String × ℚ)) (jm : SMap ℚ)
    (arr : JntArray) :
    (applyJointValues qnr l jm arr).2 = applyJointArray qnr l arr := by
  induction l generalizing jm arr with
  | nil => rfl
  | cons p l ih => rw [applyJointValues_cons, applyJointArray_cons, ih]

theorem applyJointValues_fst_not_mem (qnr : SMap ℕ) (l : List (String × ℚ)) (jm : SMap ℚ)
    (arr : JntArray) (n : String) (h : n ∉ l.map Prod.fst) :
    (applyJointValues qnr l jm arr).1 n = jm n := by
  induction l generalizing jm arr with
  | nil => rfl
  | cons p l ih =>
    have hne : n ≠ p.1 := by
      intro e; exact h (by simp [e])
    have htl : n ∉ l.map Prod.fst := by
      intro e; exact h (by simp [e])
    rw [applyJointValues_cons, ih _ _ htl]
    split
    · exact SMap.set_other jm p.1 p.2 n hne
    · rfl

theorem applyJointValues_fst_mem_known (qnr : SMap ℕ) (l : List (String × ℚ)) (jm : SMap ℚ)
    (arr : JntArray) (n : String) (v : ℚ) (i : ℕ)
    (hnd : (l.map Prod.fst).Nodup) (hmem : (n, v) ∈ l) (hq : qnr n = some i) :
    (applyJointValues qnr l jm arr).1 n = some v := by
  induction l generalizing jm arr with
  | nil => cases hmem
  | cons p l ih =>
    rw [applyJointValues_cons]
    rcases List.mem_cons.mp hmem with h | h
    · subst h
      have hr : (setJointValuesHelper qnr arr n v).1 = true := by
        simp [setJointValuesHelper, hq]
      rw [hr]
      have htl : n ∉ l.map Prod.fst := by
        simpa using (List.nodup_cons.mp hnd).1
      rw [if_pos rfl, applyJointValues_fst_not_mem _ _ _ _ _ htl]
      exact SMap.set_same jm n v
    · exact ih _ _ (List.nodup_cons.mp hnd).2 h

theorem applyJointValues_fst_mem_unknown (qnr : SMap ℕ) (l : List (String × ℚ)) (jm : SMap ℚ)
    (arr : JntArray) (n : String) (v : ℚ)
    (hnd : (l.map Prod.fst).Nodup) (hmem : (n, v) ∈ l) (hq : qnr n = none) :
    (applyJointValues qnr l jm arr).1 n = jm n := by
  induction l generalizing jm arr with
  | nil => cases hmem
  | cons p l ih =>
    rw [applyJointValues_cons]
    rcases List.mem_cons.mp hmem with h | h
    · subst h
      have hr : (setJointValuesHelper qnr arr n v).1 = false := by
        simp [setJointValuesHelper, hq]
      rw [hr]
      have htl : n ∉ l.map Prod.fst := by
        simpa using (List.nodup_cons.mp hnd).1
      rw [if_neg (by simp), applyJointValues_fst_not_mem _ _ _ _ _ htl]
    · have hne : p.1 ≠ n := by
        intro e
        exact (List.nodup_cons.mp hnd).1 (e ▸ (List.mem_map_of_mem Prod.fst h))
      rw [ih _ _ (List.nodup_cons.mp hnd).2 h]
      split
      · exact SMap.set_other jm p.1 p.2 n (Ne.symm hne)
      · rfl

/-! ## Bulk-insert lemmas (the map overload's initial `insert`) -/

theorem insertAbsent_nil (jm : SMap ℚ) : insertAbsent jm [] = jm := rfl

theorem insertAbsent_cons (jm : SMap ℚ) (p : String × ℚ) (l : List (String × ℚ)) :
    insertAbsent jm (p :: l) =
      insertAbsent (if (jm p.1).isSome then jm else jm.set p.1 p.2) l := rfl

theorem insertAbsent_some (jm : SMap ℚ) (l : List (String × ℚ)) (n : String) (w : ℚ)
    (h : jm n = some w) : insertAbsent jm l n = some w := by
  induction l generalizing jm with
  | nil => exact h
  | cons p l ih =>
    rw [insertAbsent_cons]
    apply ih
    by_cases hs : (jm p.1).isSome
    · rw [if_pos hs]; exact h
    · rw [if_neg hs]
      have hne : n ≠ p.1 := by
        intro e
        exact hs (by rw [← e, h]; rfl)
      rw [SMap.set_other _ _ _ _ hne]
      exact h

theorem insertAbsent_not_mem (jm : SMap ℚ) (l : List (String × ℚ)) (n : String)
    (h : n ∉ l.map Prod.fst) : insertAbsent jm l n = jm n := by
  induction l generalizing jm with
  | nil => rfl
  | cons p l ih =>
    have hne : n ≠ p.1 := by
      intro e; exact h (by simp [e])
    have htl : n ∉ l.map Prod.fst := by
      intro e; exact h (by simp [e])
    rw [insertAbsent_cons, ih _ htl]
    split
    · rfl
    · exact SMap.set_other jm p.1 p.2 n hne

theorem insertAbsent_none_mem (jm : SMap ℚ) (l : List (String × ℚ)) (n : String) (v : ℚ)
    (hnd : (l.map Prod.fst).Nodup) (hmem : (n, v) ∈ l) (h : jm n = none) :
    insertAbsent jm l n = some v := by
  induction l generalizing jm with
  | nil => cases hmem
  | cons p l ih =>
    rw [insertAbsent_cons]
    rcases List.mem_cons.mp hmem with hh | hh
    · subst hh
      have hs : ¬ (jm n).isSome := by simp [h]
      rw [if_neg hs]
      have htl : n ∉ l.map Prod.fst := by
        simpa using (List.nodup_cons.mp hnd).1
      rw [insertAbsent_not_mem _ _ _ htl]
      exact SMap.set_same jm n v
    · have hne : p.1 ≠ n := by
        intro e
        exact (List.nodup_cons.mp hnd).1 (e ▸ (List.mem_map_of_mem Prod.fst hh))
      apply ih _ (List.nodup_cons.mp hnd).2 hh
      split
      · exact h
      · rw [SMap.set_other _ _ _ _ (Ne.symm hne)]; exact h

/-! ## C6: setState with unknown joint names -/

/-- C6 counterexample: the map overload of `setState` bulk-inserts the given
joints into the live record before validating them, so an unknown joint
name absent from the live record IS recorded there with its given value —
the live state's record of joints changes for the rejected name. -/
theorem setState_unknown_inserted_counterexample :
    envJointW.joint_to_qnr "ghost" = none ∧
    envJointW.current_state.joints "ghost" = none ∧
    (envJointW.setState [("ghost", 5)]).current_state.joints "ghost" = some 5 := by
  refine ⟨rfl, rfl, by decide⟩

/-- C6 amended: in the map overload of `setState`, each given joint whose
name is in the tree has its value applied to the live record (and array);
a given joint whose name is not in the tree is rejected by the update loop
(no exception), but the initial bulk insert still adds it to the live joint
record when the name was absent there — when the name was already present
its recorded value is unchanged; every joint not named in the call keeps
its previous value. -/
theorem setState_characterization {T : Type} [Mul T] [One T] [Inhabited T]
    (env : KDLEnv T) (l : List (String × ℚ)) (n : String)
    (hnd : (l.map Prod.fst).Nodup) :
    (∀ v i, (n, v) ∈ l → env.joint_to_qnr n = some i →
      (env.setState l).current_state.joints n = some v) ∧
    (∀ v, (n, v) ∈ l → env.joint_to_qnr n = none → env.current_state.joints n = none →
      (env.setState l).current_state.joints n = some v) ∧
    (∀ v w, (n, v) ∈ l → env.joint_to_qnr n = none → env.current_state.joints n = some w →
      (env.setState l).current_state.joints n = some w) ∧
    (n ∉ l.map Prod.fst →
      (env.setState l).current_state.joints n = env.current_state.joints n) := by
  have hj : (env.setState l).current_state.joints =
      (applyJointValues env.joint_to_qnr l (insertAbsent env.current_state.joints l)
        env.kdl_jnt_array).1 := rfl
  refine ⟨?_, ?_, ?_, ?_⟩
  · intro v i hmem hq
    rw [hj]
    exact applyJointValues_fst_mem_known _ _ _ _ _ _ i hnd hmem hq
  · intro v hmem hq habs
    rw [hj, applyJointValues_fst_mem_unknown _ _ _ _ _ _ hnd hmem hq]
    exact insertAbsent_none_mem _ _ _ _ hnd hmem habs
  · intro v w hmem hq hpres
    rw [hj, applyJointValues_fst_mem_unknown _ _ _ _ _ _ hnd hmem hq]
    exact insertAbsent_some _ _ _ _ hpres
  · intro hn
    rw [hj, applyJointValues_fst_not_mem _ _ _ _ _ hn]
    exact insertAbsent_not_mem _ _ _ hn

/-- Witness for C6's amended claim: a known joint applies, an unknown one
is inserted by the bulk insert, and an unnamed joint keeps its value. -/
theorem setState_characterization_witness :
    (envJointW.setState [("j1", 2), ("ghost", 5)]).current_state.joints "j1" = some 2 ∧
    (envJointW.setState [("j1", 2), ("ghost", 5)]).current_state.joints "ghost" = some 5 ∧
    (envJointW.setState [("j1", 2), ("ghost", 5)]).current_state.joints "other" =
      envJointW.current_state.joints "other" :=
  ⟨(setState_characterization envJointW [("j1", 2), ("ghost", 5)] "j1" (by decide)).1
      2 0 (by decide) rfl,
   (setState_characterization envJointW [("j1", 2), ("ghost", 5)] "ghost" (by decide)).2.1
      5 (by decide) rfl rfl,
   (setState_characterization envJointW [("j1", 2), ("ghost", 5)] "other" (by decide)).2.2.2
      (by decide)⟩

/-! ## C1: getState is a non-mutating snapshot -/

/-- C1: `getState(jointNames, jointValues)` leaves the environment — the
live state's joints and transforms and both collision managers — entirely
unchanged, and returns a new `EnvState` whose joints are the live joints
with exactly the given known joints overlaid (unknown names are rejected,
unnamed joints keep their live values) and whose transforms are recomputed
from the overlaid clone of the live joint array, starting from a copy of
the live transform map. -/
theorem getState_snapshot {T : Type} [Mul T] [One T] [Inhabited T]
    (env : KDLEnv T) (joint_names : List String) (joint_values : List ℚ)
    (hnd : joint_names.Nodup) (hlen : joint_names.length = joint_values.length) :
    (env.getState joint_names joint_values).2 = env ∧
    (∀ n v i, (n, v) ∈ joint_names.zip joint_values → env.joint_to_qnr n = some i →
      (env.getState joint_names joint_values).1.joints n = some v) ∧
    (∀ n v, (n, v) ∈ joint_names.zip joint_values → env.joint_to_qnr n = none →
      (env.getState joint_names joint_values).1.joints n = env.current_state.joints n) ∧
    (∀ n, n ∉ joint_names →
      (env.getState joint_names joint_values).1.joints n = env.current_state.joints n) ∧
    (env.getState joint_names joint_values).1.transforms =
      calculateTransforms env.attached_bodies
        (applyJointArray env.joint_to_qnr (joint_names.zip joint_values) env.kdl_jnt_array)
        env.root 1 env.current_state.transforms := by
  have hkeys : (joint_names.zip joint_values).map Prod.fst = joint_names :=
    List.map_fst_zip joint_names joint_values (le_of_eq hlen)
  have hznd : ((joint_names.zip joint_values).map Prod.fst).Nodup := by
    rw [hkeys]; exact hnd
  have hj : (env.getState joint_names joint_values).1.joints =
      (applyJointValues env.joint_to_qnr (joint_names.zip joint_values)
        env.current_state.joints env.kdl_jnt_array).1 := rfl
  refine ⟨rfl, ?_, ?_, ?_, ?_⟩
  · intro n v i hmem hq
    rw [hj]
    exact applyJointValues_fst_mem_known _ _ _ _ _ _ i hznd hmem hq
  · intro n v hmem hq
    rw [hj]
    exact applyJointValues_fst_mem_unknown _ _ _ _ _ _ hznd hmem hq
  · intro n hn
    rw [hj]
    exact applyJointValues_fst_not_mem _ _ _ _ _ (by rw [hkeys]; exact hn)
  · show (calculateTransforms env.attached_bodies
      (applyJointValues env.joint_to_qnr (joint_names.zip joint_values)
        env.current_state.joints env.kdl_jnt_array).2 env.root 1
      env.current_state.transforms) = _
    rw [applyJointValues_snd]

/-- Witness for C1: a snapshot over one known and one unknown joint. -/
theorem getState_snapshot_witness :
    (envJointW.getState ["j1", "ghost"] [3, 7]).2 = envJointW ∧
    (envJointW.getState ["j1", "ghost"] [3, 7]).1.joints "j1" = some 3 ∧
    (envJointW.getState ["j1", "ghost"] [3, 7]).1.joints "ghost" =
      envJointW.current_state.joints "ghost" ∧
    (envJointW.getState ["j1", "ghost"] [3, 7]).1.joints "other" =
      envJointW.current_state.joints "other" :=
  ⟨(getState_snapshot envJointW ["j1", "ghost"] [3, 7] (by decide) rfl).1,
   (getState_snapshot envJointW ["j1", "ghost"] [3, 7] (by decide) rfl).2.1
      "j1" 3 0 (by decide) rfl,
   (getState_snapshot envJointW ["j1", "ghost"] [3, 7] (by decide) rfl).2.2.1
      "ghost" 7 (by decide) rfl,
   (getState_snapshot envJointW ["j1", "ghost"] [3, 7] (by decide) rfl).2.2.2.1
      "other" (by decide)⟩

/-! ## C7: attached-body transforms overlay the finished tree pass -/

theorem overlayAttached_nil {T : Type} [Mul T] [Inhabited T] (m : SMap T) :
    overlayAttached [] m = m := rfl

theorem overlayAttached_cons {T : Type} [Mul T] [Inhabited T]
    (ab : String × AttachedBodyInfo T) (l : List (String × AttachedBodyInfo T)) (m : SMap T) :
    overlayAttached (ab :: l) m =
      overlayAttached l
        (m.set ab.1 (((m ab.2.parent_link_name).getD default) * ab.2.transform)) := rfl

theorem overlayAttached_not_mem {T : Type} [Mul T] [Inhabited T]
    (l : List (String × AttachedBodyInfo T)) (m : SMap T) (n : String)
    (h : n ∉ l.map Prod.fst) : overlayAttached l m n = m n := by
  induction l generalizing m with
  | nil => rfl
  | cons ab l ih =>
    have hne : n ≠ ab.1 := by
      intro e; exact h (by simp [e])
    have htl : n ∉ l.map Prod.fst := by
      intro e; exact h (by simp [e])
    rw [overlayAttached_cons, ih _ htl]
    exact SMap.set_other _ _ _ _ hne

theorem overlayAttached_mem {T : Type} [Mul T] [Inhabited T]
    (l : List (String × AttachedBodyInfo T)) (m : SMap T) (n : String)
    (info : AttachedBodyInfo T) (pt : T)
    (hnd : (l.map Prod.fst).Nodup) (hmem : (n, info) ∈ l)
    (hp : info.parent_link_name ∉ l.map Prod.fst)
    (hpt : m info.parent_link_name = some pt) :
    overlayAttached l m n = some (pt * info.transform) := by
  induction l generalizing m with
  | nil => cases hmem
  | cons ab l ih =>
    rw [overlayAttached_cons]
    rcases List.mem_cons.mp hmem with h | h
    · subst h
      have htl : n ∉ l.map Prod.fst := by
        simpa using (List.nodup_cons.mp hnd).1
      rw [overlayAttached_not_mem _ _ _ htl, hpt]
      exact SMap.set_same m n _
    · have hab : ab.1 ≠ info.parent_link_name := by
        intro e; exact hp (e ▸ (by simp))
      have hptl : info.parent_link_name ∉ l.map Prod.fst := by
        intro e; exact hp (by simp [e])
      refine ih _ (List.nodup_cons.mp hnd).2 h hptl ?_
      rw [SMap.set_other _ _ _ _ (Ne.symm hab)]
      exact hpt

/-- C7: for every joint array and every attached body whose parent is not
itself an attached object name, after `calculateTransforms` the transform
map entry for the attached body equals the tree-pass transform of its
parent link (already final, computed by `calculateTransformsHelper`)
composed with the attachment's fixed relative transform. -/
theorem calculateTransforms_attached_overlay {T : Type} [Mul T] [Inhabited T]
    (attached : List (String × AttachedBodyInfo T)) (q : JntArray) (root : Segment T)
    (parentFrame : T) (m : SMap T) (n : String) (info : AttachedBodyInfo T) (pt : T)
    (hnd : (attached.map Prod.fst).Nodup) (hmem : (n, info) ∈ attached)
    (hp : info.parent_link_name ∉ attached.map Prod.fst)
    (hpt : calculateTransformsHelper q root parentFrame m info.parent_link_name = some pt) :
    calculateTransforms attached q root parentFrame m n = some (pt * info.transform) :=
  overlayAttached_mem attached _ n info pt hnd hmem hp hpt

/-- Witness for C7: one segment, one attached object hanging off it. -/
theorem calculateTransforms_attached_overlay_witness :
    ((([("obj", infoW)] : List (String × AttachedBodyInfo ℚ)).map Prod.fst).Nodup ∧
      ("obj", infoW) ∈ [("obj", infoW)] ∧
      infoW.parent_link_name ∉ ([("obj", infoW)].map Prod.fst) ∧
      calculateTransformsHelper (fun _ => 1) segBaseW 1 (fun _ => none) "base_link"
        = some 2) ∧
    calculateTransforms [("obj", infoW)] (fun _ => 1) segBaseW 1 (fun _ => none) "obj"
      = some (2 * infoW.transform) :=
  ⟨⟨by decide, by decide, by decide,
    by simp [calculateTransformsHelper, calcChildren, segBaseW, SMap.set]; norm_num⟩,
   calculateTransforms_attached_overlay [("obj", infoW)] (fun _ => 1) segBaseW 1
     (fun _ => none) "obj" infoW 2 (by decide) (by decide) (by decide)
     (by simp [calculateTransformsHelper, calcChildren, segBaseW, SMap.set, infoW]; norm_num)⟩

/-! ## C8: attach/detach round trip -/

theorem filter_ne_of_not_mem (l : List String) (n : String) (h : n ∉ l) :
    (l.filter fun x => x ≠ n) = l := by
  induction l with
  | nil => rfl
  | cons a l ih =>
    have ha : a ≠ n := fun e => h (e ▸ List.mem_cons_self a l)
    have htl : n ∉ l := fun e => h (List.mem_cons_of_mem a e)
    rw [List.filter_cons, if_pos (by exact decide_eq_true ha), ih htl]

theorem filter_append_ne (l : List String) (n : String) (h : n ∉ l) :
    ((l ++ [n]).filter fun x => x ≠ n) = l := by
  rw [List.filter_append, filter_ne_of_not_mem l n h]
  simp

theorem cond_active_filter (al : List String) (nm par : String) (h : nm ∉ al) :
    ((if par ∈ al then al ++ [nm] else al).filter fun x => x ≠ nm) = al := by
  split
  · exact filter_append_ne al nm h
  · exact filter_ne_of_not_mem al nm h

/-- C8: attaching a catalogued, currently unattached object and then
detaching it restores the link-name list, the active-link-name list, and
both collision managers' active-object lists and per-object enabled state
to exactly their values before the attach.  The hypotheses express the
reachable-state invariants: the object is not attached, not an active link,
its collision object is disabled (the catalog adds attachables disabled),
and the managers' active lists mirror the environment's. -/
theorem attach_detach_roundtrip {T : Type} [Mul T] [One T] [Inhabited T]
    (env : KDLEnv T) (info : AttachedBodyInfo T)
    (hnat : alookup env.attached_bodies info.object_name = none)
    (hact : info.object_name ∉ env.active_link_names)
    (hend : env.discrete_manager.enabled info.object_name = false)
    (henc : env.continuous_manager.enabled info.object_name = false)
    (hdact : env.discrete_manager.active = env.active_link_names)
    (hcact : env.continuous_manager.active = env.active_link_names) :
    ((env.attachBody info).detachBody info.object_name).link_names = env.link_names ∧
    ((env.attachBody info).detachBody info.object_name).active_link_names
      = env.active_link_names ∧
    ((env.attachBody info).detachBody info.object_name).discrete_manager.active
      = env.discrete_manager.active ∧
    ((env.attachBody info).detachBody info.object_name).discrete_manager.enabled
      = env.discrete_manager.enabled ∧
    ((env.attachBody info).detachBody info.object_name).continuous_manager.active
      = env.continuous_manager.active ∧
    ((env.attachBody info).detachBody info.object_name).continuous_manager.enabled
      = env.continuous_manager.enabled := by
  obtain ⟨rt, qn, arr, ⟨cjs, ctf⟩, ln, al, cat, att, acm, ⟨dA, dE, dT⟩, ⟨cA, cE, cT⟩⟩ := env
  obtain ⟨nm, par, tfm, touch⟩ := info
  simp only at hnat hact hend henc hdact hcact ⊢
  by_cases hcat : nm ∈ cat
  · by_cases hlink : nm ∈ ln
    · have ha : KDLEnv.attachBody ⟨rt, qn, arr, ⟨cjs, ctf⟩, ln, al, cat, att, acm,
          ⟨dA, dE, dT⟩, ⟨cA, cE, cT⟩⟩ (⟨nm, par, tfm, touch⟩ : AttachedBodyInfo T) =
          ⟨rt, qn, arr, ⟨cjs, ctf⟩, ln, al, cat, att, acm, ⟨dA, dE, dT⟩, ⟨cA, cE, cT⟩⟩ := by
        unfold KDLEnv.attachBody
        rw [if_neg (by simp [hnat]), if_neg (not_not_intro hcat), if_pos hlink]
      have hb : KDLEnv.detachBody (⟨rt, qn, arr, ⟨cjs, ctf⟩, ln, al, cat, att, acm,
          ⟨dA, dE, dT⟩, ⟨cA, cE, cT⟩⟩ : KDLEnv T) nm =
          ⟨rt, qn, arr, ⟨cjs, ctf⟩, ln, al, cat, att, acm, ⟨dA, dE, dT⟩, ⟨cA, cE, cT⟩⟩ := by
        unfold KDLEnv.detachBody
        rw [if_neg (by simp [hnat])]
      rw [ha, hb]
      exact ⟨rfl, rfl, rfl, rfl, rfl, rfl⟩
    · have ha : KDLEnv.attachBody ⟨rt, qn, arr, ⟨cjs, ctf⟩, ln, al, cat, att, acm,
          ⟨dA, dE, dT⟩, ⟨cA, cE, cT⟩⟩ (⟨nm, par, tfm, touch⟩ : AttachedBodyInfo T) =
          ⟨rt, qn, arr,
           ⟨cjs, calculateTransforms (att ++ [(nm, (⟨nm, par, tfm, touch⟩ : AttachedBodyInfo T))]) arr rt 1 ctf⟩,
           ln ++ [nm],
           (if par ∈ al then al ++ [nm] else al),
           cat, att ++ [(nm, (⟨nm, par, tfm, touch⟩ : AttachedBodyInfo T))], acm,
           ⟨(if par ∈ al then al ++ [nm] else al),
            fun k => if k = nm then true else dE k,
            SMap.set dT nm
              (((calculateTransforms (att ++ [(nm, (⟨nm, par, tfm, touch⟩ : AttachedBodyInfo T))]) arr rt 1 ctf)
                nm).getD default)⟩,
           ⟨(if par ∈ al then al ++ [nm] else al),
            fun k => if k = nm then true else cE k,
            SMap.set cT nm
              (((calculateTransforms (att ++ [(nm, (⟨nm, par, tfm, touch⟩ : AttachedBodyInfo T))]) arr rt 1 ctf)
                nm).getD default)⟩⟩ := by
        unfold KDLEnv.attachBody
        rw [if_neg (by simp [hnat]), if_neg (not_not_intro hcat), if_neg hlink]
        rfl
      rw [ha]
      have hb : KDLEnv.detachBody
          (⟨rt, qn, arr,
            ⟨cjs, calculateTransforms (att ++ [(nm, (⟨nm, par, tfm, touch⟩ : AttachedBodyInfo T))]) arr rt 1 ctf⟩,
            ln ++ [nm],
            (if par ∈ al then al ++ [nm] else al),
            cat, att ++ [(nm, (⟨nm, par, tfm, touch⟩ : AttachedBodyInfo T))], acm,
            ⟨(if par ∈ al then al ++ [nm] else al),
             fun k => if k = nm then true else dE k,
             SMap.set dT nm
               (((calculateTransforms (att ++ [(nm, (⟨nm, par, tfm, touch⟩ : AttachedBodyInfo T))]) arr rt 1 ctf)
                 nm).getD default)⟩,
            ⟨(if par ∈ al then al ++ [nm] else al),
             fun k => if k = nm then true else cE k,
             SMap.set cT nm
               (((calculateTransforms (att ++ [(nm, (⟨nm, par, tfm, touch⟩ : AttachedBodyInfo T))]) arr rt 1 ctf)
                 nm).getD default)⟩⟩ : KDLEnv T) nm =
          ⟨rt, qn, arr,
           ⟨cjs, SMap.erase
             (calculateTransforms (att ++ [(nm, (⟨nm, par, tfm, touch⟩ : AttachedBodyInfo T))]) arr rt 1 ctf) nm⟩,
           (ln ++ [nm]).filter (fun x => x ≠ nm),
           (if par ∈ al then al ++ [nm] else al).filter (fun x => x ≠ nm),
           cat,
           (att ++ [(nm, (⟨nm, par, tfm, touch⟩ : AttachedBodyInfo T))]).filter (fun p => p.1 ≠ nm),
           acm,
           ⟨(if par ∈ al then al ++ [nm] else al).filter (fun x => x ≠ nm),
            fun k => if k = nm then false else (if k = nm then true else dE k),
            SMap.set dT nm
              (((calculateTransforms (att ++ [(nm, (⟨nm, par, tfm, touch⟩ : AttachedBodyInfo T))]) arr rt 1 ctf)
                nm).getD default)⟩,
           ⟨(if par ∈ al then al ++ [nm] else al).filter (fun x => x ≠ nm),
            fun k => if k = nm then false else (if k = nm then true else cE k),
            SMap.set cT nm
              (((calculateTransforms (att ++ [(nm, (⟨nm, par, tfm, touch⟩ : AttachedBodyInfo T))]) arr rt 1 ctf)
                nm).getD default)⟩⟩ := by
        unfold KDLEnv.detachBody
        rw [if_pos (by simp [alookup_append_right hnat])]
        rfl
      rw [hb]
      refine ⟨?_, ?_, ?_, ?_, ?_, ?_⟩
      · exact filter_append_ne _ _ hlink
      · exact cond_active_filter _ _ _ hact
      · rw [hdact]
        exact cond_active_filter _ _ _ hact
      · funext k
        by_cases hk : k = nm
        · subst hk
          simp [hend]
        · simp [hk]
      · rw [hcact]
        exact cond_active_filter _ _ _ hact
      · funext k
        by_cases hk : k = nm
        · subst hk
          simp [henc]
        · simp [hk]
  · have ha : KDLEnv.attachBody ⟨rt, qn, arr, ⟨cjs, ctf⟩, ln, al, cat, att, acm,
        ⟨dA, dE, dT⟩, ⟨cA, cE, cT⟩⟩ (⟨nm, par, tfm, touch⟩ : AttachedBodyInfo T) =
        ⟨rt, qn, arr, ⟨cjs, ctf⟩, ln, al, cat, att, acm, ⟨dA, dE, dT⟩, ⟨cA, cE, cT⟩⟩ := by
      unfold KDLEnv.attachBody
      rw [if_neg (by simp [hnat]), if_pos hcat]
    have hb : KDLEnv.detachBody (⟨rt, qn, arr, ⟨cjs, ctf⟩, ln, al, cat, att, acm,
        ⟨dA, dE, dT⟩, ⟨cA, cE, cT⟩⟩ : KDLEnv T) nm =
        ⟨rt, qn, arr, ⟨cjs, ctf⟩, ln, al, cat, att, acm, ⟨dA, dE, dT⟩, ⟨cA, cE, cT⟩⟩ := by
      unfold KDLEnv.detachBody
      rw [if_neg (by simp [hnat])]
    rw [ha, hb]
    exact ⟨rfl, rfl, rfl, rfl, rfl, rfl⟩

/-- Witness for C8: attaching and detaching the catalogued object `obj`. -/
theorem attach_detach_roundtrip_witness :
    ((envCatW.attachBody infoW).detachBody infoW.object_name).link_names
      = envCatW.link_names ∧
    ((envCatW.attachBody infoW).detachBody infoW.object_name).active_link_names
      = envCatW.active_link_names ∧
    ((envCatW.attachBody infoW).detachBody infoW.object_name).discrete_manager.active
      = envCatW.discrete_manager.active ∧
    ((envCatW.attachBody infoW).detachBody infoW.object_name).discrete_manager.enabled
      = envCatW.discrete_manager.enabled ∧
    ((envCatW.attachBody infoW).detachBody infoW.object_name).continuous_manager.active
      = envCatW.continuous_manager.active ∧
    ((envCatW.attachBody infoW).detachBody infoW.object_name).continuous_manager.enabled
      = envCatW.continuous_manager.enabled :=
  attach_detach_roundtrip envCatW infoW (by decide) (by decide) rfl rfl rfl rfl

end Tesseract


